import Mathlib

/-!
Verification development for the Q-Mag-Deep stock screener repository.

Shallow embedding of the three core modules:
* `src/database.py`   — `StockDatabase`: SQLite-backed store for daily bars
  plus derived indicators, with an lru-cached last-updated lookup.
* `src/data_fetcher.py` — `DataFetcher.fetch_data`: multi-source fetch with
  retry, returning `(None, "failed")` after exhausting every source.
* `src/screening_optimized.py` — `StockScreener`: rolling-window signal
  computation and threshold filter per ticker.

Machine floats of the Python code are modelled as `ℚ`; a pandas `NaN`
entry of a derived series is modelled as `none : Option ℚ` (pandas
comparisons against NaN are `False`, modelled by comparisons on `Option`
that return `false` on `none`).  Dates are modelled as the `%Y-%m-%d`
strings the code stores.
-/

namespace QMag

abbrev Ticker := String
abbrev Date := String

/-- One raw daily OHLCV bar, a row of the DataFrame handed to
`update_ticker_data` (columns Open/High/Low/Close/Adj Close/Volume,
indexed by date). -/
structure Bar where
  date : Date
  openP : ℚ
  high : ℚ
  low : ℚ
  close : ℚ
  adjClose : ℚ
  volume : ℚ
  deriving DecidableEq, Repr, Inhabited

/-! ## Rolling / exponentially weighted series primitives

Translations of the pandas operations used in `database.py` and
`screening_optimized.py`.  Every derived series has the same length as
its input; an entry with too little history is `none` (NaN). -/

/-- The window of width `w` ending at index `j`: elements `j+1-w .. j`.
This is what `rolling(w)` aggregates at position `j` (when `j+1 ≥ w`). -/
def window (w j : ℕ) (xs : List ℚ) : List ℚ :=
  (xs.take (j+1)).drop (j+1-w)

/-- `series.rolling(w).mean()` (default `min_periods = w`). -/
def rollingMean (w : ℕ) (xs : List ℚ) : List (Option ℚ) :=
  (List.range xs.length).map fun j =>
    if 0 < w ∧ w ≤ j+1 then some ((window w j xs).sum / w) else none

/-- `series.rolling(w).max()`. -/
def rollingMax (w : ℕ) (xs : List ℚ) : List (Option ℚ) :=
  (List.range xs.length).map fun j =>
    if 0 < w ∧ w ≤ j+1 then (window w j xs).maximum else none

/-- `series.rolling(w).min()`. -/
def rollingMin (w : ℕ) (xs : List ℚ) : List (Option ℚ) :=
  (List.range xs.length).map fun j =>
    if 0 < w ∧ w ≤ j+1 then (window w j xs).minimum else none

/-- `series.shift(n)`: entry `j` is the value `n` rows earlier, NaN for
the first `n` rows. -/
def shift (n : ℕ) (xs : List α) : List (Option α) :=
  (List.range xs.length).map fun j => if n ≤ j then xs[j-n]? else none

/-- `series.ewm(span, adjust=False).mean()` recursion after the seed:
`e_i = (1-α)·e_{i-1} + α·x_i`. -/
def ewmAux (alpha prev : ℚ) : List ℚ → List ℚ
  | [] => []
  | x :: rest =>
      let e := (1 - alpha) * prev + alpha * x
      e :: ewmAux alpha e rest

/-- `series.ewm(span=s, adjust=False).mean()` with `α = 2/(s+1)`;
the first output equals the first input. -/
def ewmMean (span : ℕ) : List ℚ → List ℚ
  | [] => []
  | x :: rest => x :: ewmAux (2 / (span + 1)) x rest

/-- Elementwise difference of two equal-length series. -/
def seriesSub (xs ys : List ℚ) : List ℚ := List.zipWith (· - ·) xs ys

/-! ## The store (`src/database.py`) -/

/-- The six derived-indicator columns `update_ticker_data` writes into
its argument DataFrame (lines 112–117 of `database.py`).  Only `MA10`
can be NaN; the `ewm` columns are defined from the first row on. -/
structure Indicators where
  ma10 : List (Option ℚ)
  ema12 : List ℚ
  ema26 : List ℚ
  macd : List ℚ
  macdSignal : List ℚ
  macdHist : List ℚ
  deriving DecidableEq, Repr

/-- Lines 112–117 of `database.py`, computed from the Close column. -/
def computeIndicators (bars : List Bar) : Indicators :=
  let closes := bars.map (·.close)
  let ema12 := ewmMean 12 closes
  let ema26 := ewmMean 26 closes
  let macd := seriesSub ema12 ema26
  let macdSignal := ewmMean 9 macd
  { ma10 := rollingMean 10 closes
    ema12 := ema12
    ema26 := ema26
    macd := macd
    macdSignal := macdSignal
    macdHist := seriesSub macd macdSignal }

/-- A pandas DataFrame as passed to / mutated by `update_ticker_data`:
its raw bars plus, once the indicator block has run, the six added
columns. -/
structure DataFrame where
  bars : List Bar
  indicators : Option Indicators
  deriving DecidableEq, Repr

/-- A non-key column tuple of the `stocks` table (schema at
`database.py` lines 52–70; primary key `(Date, Ticker)` is the map key). -/
structure StockRow where
  openP : ℚ
  high : ℚ
  low : ℚ
  close : ℚ
  adjClose : ℚ
  volume : ℚ
  ma10 : Option ℚ
  ema12 : ℚ
  ema26 : ℚ
  macd : ℚ
  macdSignal : ℚ
  macdHist : ℚ
  deriving DecidableEq, Repr

/-- A row of the `metadata` table (lines 72–78): keyed by ticker. -/
structure MetaRow where
  last_updated : Date
  data_source : String
  deriving DecidableEq, Repr

/-- `INSERT OR REPLACE` of one keyed row into a table-as-map. -/
def upsert [DecidableEq K] (m : K → Option V) (kv : K × V) : K → Option V :=
  fun k => if k = kv.1 then some kv.2 else m k

/-- `cursor.executemany('INSERT OR REPLACE INTO stocks ...', records)`:
left-to-right replace-on-conflict of every record. -/
def upsertAll [DecidableEq K] (m : K → Option V) (l : List (K × V)) : K → Option V :=
  l.foldl upsert m

/-- The record list built at `database.py` lines 120–129: one tuple per
row of the (already mutated) DataFrame, keyed by `(date, ticker)`. -/
def mkRecords (ticker : Ticker) (bars : List Bar) (ind : Indicators) :
    List ((Date × Ticker) × StockRow) :=
  (List.range bars.length).map fun i =>
    let b := bars.getD i default
    ((b.date, ticker),
      { openP := b.openP, high := b.high, low := b.low, close := b.close
        adjClose := b.adjClose, volume := b.volume
        ma10 := ind.ma10.getD i none
        ema12 := ind.ema12.getD i 0, ema26 := ind.ema26.getD i 0
        macd := ind.macd.getD i 0, macdSignal := ind.macdSignal.getD i 0
        macdHist := ind.macdHist.getD i 0 })

/-- Full in-process state of a `StockDatabase`: the two SQLite tables
plus the `lru_cache` memo attached to `get_ticker_last_updated`
(`@lru_cache(maxsize=1000)`, line 86).  The cache maps a ticker to the
memoised return value; eviction never fires in the scenarios considered
here (far fewer than 1000 distinct tickers), so it is not modelled. -/
structure Sys where
  stocks : Date × Ticker → Option StockRow
  meta : Ticker → Option MetaRow
  cache : Ticker → Option (Option Date)

/-- `data.index[-1].strftime('%Y-%m-%d')` (line 138). -/
def lastBarDate (bars : List Bar) : Date :=
  (bars.getLast?).elim "" (·.date)

/-- `StockDatabase.update_ticker_data` (`database.py` lines 98–145):
returns False untouched on empty input; otherwise mutates the caller's
DataFrame with six indicator columns, upserts every row into `stocks`,
and overwrites the ticker's `metadata` row with the last bar's date and
the source label.  The returned `DataFrame` is the caller's object after
the call (Python mutates it in place). -/
def update_ticker_data (s : Sys) (ticker : Ticker) (data : DataFrame)
    (data_source : String) : Bool × Sys × DataFrame :=
  if data.bars.isEmpty then (false, s, data)
  else
    let ind := computeIndicators data.bars
    let mutated : DataFrame := { bars := data.bars, indicators := some ind }
    let recs := mkRecords ticker data.bars ind
    let stocks' := upsertAll s.stocks recs
    let meta' : Ticker → Option MetaRow := fun t =>
      if t = ticker then some ⟨lastBarDate data.bars, data_source⟩ else s.meta t
    (true, { stocks := stocks', meta := meta', cache := s.cache }, mutated)

/-- `StockDatabase.get_ticker_last_updated` (lines 86–96): memoised by
`@lru_cache`, so a repeat call returns the cached value without reading
the `metadata` table; a miss reads the table and caches the result
(also caching a `None` result). -/
def get_ticker_last_updated (s : Sys) (ticker : Ticker) : Option Date × Sys :=
  match s.cache ticker with
  | some v => (v, s)
  | none =>
      let v := (s.meta ticker).map (·.last_updated)
      (v, { s with cache := fun t => if t = ticker then some v else s.cache t })

/-- The empty database right after `_init_db` on a fresh file. -/
def initSys : Sys := ⟨fun _ => none, fun _ => none, fun _ => none⟩

/-! ## The screener (`src/screening_optimized.py`)

Comparisons on `Option ℚ` model pandas comparisons on possibly-NaN
series entries: any comparison with NaN is `False`. -/

/-- Strict `>` on possibly-NaN values. -/
def ogtB : Option ℚ → Option ℚ → Bool
  | some x, some y => decide (y < x)
  | _, _ => false

/-- `≥` on possibly-NaN values. -/
def ogeB : Option ℚ → Option ℚ → Bool
  | some x, some y => decide (y ≤ x)
  | _, _ => false

/-- `≤` on possibly-NaN values. -/
def oleB : Option ℚ → Option ℚ → Bool
  | some x, some y => decide (x ≤ y)
  | _, _ => false

/-- Strict `<` on possibly-NaN values. -/
def oltB : Option ℚ → Option ℚ → Bool
  | some x, some y => decide (x < y)
  | _, _ => false

/-- Elementwise arithmetic on possibly-NaN series: NaN propagates. -/
def ozipWith (f : ℚ → ℚ → ℚ) : List (Option ℚ) → List (Option ℚ) → List (Option ℚ) :=
  List.zipWith fun a b =>
    match a, b with
    | some x, some y => some (f x y)
    | _, _ => none

/-- A plain series viewed as a NaN-free possibly-NaN series. -/
def toOpt (xs : List ℚ) : List (Option ℚ) := xs.map some

/-- `rolling(w).mean()` over a series that may already contain NaN:
with the default `min_periods = w`, a window containing any NaN yields
NaN. -/
def rollingMeanO (w : ℕ) (xs : List (Option ℚ)) : List (Option ℚ) :=
  (List.range xs.length).map fun j =>
    if 0 < w ∧ w ≤ j+1 then
      let win := (xs.take (j+1)).drop (j+1-w)
      if win.all (·.isSome) then some ((win.filterMap id).sum / w) else none
    else none

/-- The slice of a stored per-ticker DataFrame that `_analyze_stock`
reads (`Close`, `Volume`, `High`, `Low` and the date index); the
remaining stored columns are never consulted by the screener. -/
structure TickerData where
  dates : List Date
  high : List ℚ
  low : List ℚ
  close : List ℚ
  volume : List ℚ
  deriving DecidableEq, Repr

/-- `(close / close.shift(n) - 1) * 100` (`screening_optimized.py`
lines 84–85). -/
def riseSeries (n : ℕ) (close : List ℚ) : List (Option ℚ) :=
  ozipWith (fun c p => (c / p - 1) * 100) (toOpt close) (shift n close)

/-- `(recent_high / recent_low - 1) * 100` (line 88). -/
def consRangeSeries (consol_days : ℕ) (close : List ℚ) : List (Option ℚ) :=
  ozipWith (fun h l => (h / l - 1) * 100)
    (rollingMax consol_days close) (rollingMin consol_days close)

/-- `volume.rolling(consol).mean() < volume.shift(consol).rolling(prior).mean()`
(line 89), the signal that is computed and then never consulted. -/
def volDeclineSeries (prior_days consol_days : ℕ) (volume : List ℚ) : List Bool :=
  (List.range volume.length).map fun i =>
    oltB ((rollingMean consol_days volume).getD i none)
      ((rollingMeanO prior_days (shift consol_days volume)).getD i none)

/-- `daily_range.rolling(prior).mean() * 100` with
`daily_range = (high - low) / close.shift(1)` (lines 90–91). -/
def adrSeries (prior_days : ℕ) (high low close : List ℚ) : List (Option ℚ) :=
  let daily_range := ozipWith (· / ·) (toOpt (seriesSub high low)) (shift 1 close)
  (rollingMeanO prior_days daily_range).map (Option.map (· * 100))

/-- `(close > recent_high.shift(1)) & (close.shift(1) <= recent_high.shift(1))`
(line 92). -/
def breakoutSeries (consol_days : ℕ) (close : List ℚ) : List Bool :=
  let rh1 := shift 1 (rollingMax consol_days close)
  (List.range close.length).map fun i =>
    ogtB (some (close.getD i 0)) ((rh1.getD i none).join) &&
      oleB ((shift 1 close).getD i none) ((rh1.getD i none).join)

/-- `volume > volume.rolling(10).mean() * 1.5` (line 93). -/
def breakoutVolumeSeries (volume : List ℚ) : List Bool :=
  (List.range volume.length).map fun i =>
    ogtB (some (volume.getD i 0))
      (((rollingMean 10 volume).getD i none).map (· * (3/2)))

/-- The breakout flag reduced to its first conjunct
`close > recent_high.shift(1)` alone; stated only to compare with
`breakoutSeries`, whose second conjunct is claimed redundant. -/
def breakoutFirstConjunct (consol_days : ℕ) (close : List ℚ) : List Bool :=
  (List.range close.length).map fun i =>
    ogtB (some (close.getD i 0))
      (((shift 1 (rollingMax consol_days close)).getD i none).join)

/-- The filter mask of lines 96–101: conjunction of the four threshold
tests, entrywise over the derived series. -/
def screenMask (d : TickerData) (prior_days consol_days : ℕ)
    (min_rise_22 min_rise_67 max_range min_adr : ℚ) : List Bool :=
  (List.range d.close.length).map fun i =>
    ogeB ((riseSeries 22 d.close).getD i none) (some min_rise_22) &&
    ogeB ((riseSeries 67 d.close).getD i none) (some min_rise_67) &&
    oleB ((consRangeSeries consol_days d.close).getD i none) (some max_range) &&
    ogeB ((adrSeries prior_days d.high d.low d.close).getD i none) (some min_adr)

/-- One row of the result DataFrame built at lines 108–119. -/
structure ScreenRow where
  ticker : Ticker
  date : Date
  price : ℚ
  rise22 : Option ℚ
  rise67 : Option ℚ
  consRange : Option ℚ
  adr : Option ℚ
  breakoutFlag : Bool
  breakoutVolumeFlag : Bool
  volume : ℚ
  deriving DecidableEq, Repr

/-- `StockScreener._analyze_stock` (lines 61–125): skip when the
history is shorter than `prior + consol + 30`; compute the derived
series (including the unused `vol_decline`); return `none` when no date
passes the mask, else one `ScreenRow` per passing date. -/
def analyze_stock (ticker : Ticker) (d : TickerData) (prior_days consol_days : ℕ)
    (min_rise_22 min_rise_67 max_range min_adr : ℚ) : Option (List ScreenRow) :=
  if d.dates.length < prior_days + consol_days + 30 then none
  else
    let vol_decline := volDeclineSeries prior_days consol_days d.volume
    let mask := screenMask d prior_days consol_days
      min_rise_22 min_rise_67 max_range min_adr
    if !mask.any id then none
    else some ((List.range d.dates.length).filterMap fun i =>
      if mask.getD i false then
        some { ticker := ticker
               date := d.dates.getD i ""
               price := d.close.getD i 0
               rise22 := (riseSeries 22 d.close).getD i none
               rise67 := (riseSeries 67 d.close).getD i none
               consRange := (consRangeSeries consol_days d.close).getD i none
               adr := (adrSeries prior_days d.high d.low d.close).getD i none
               breakoutFlag := (breakoutSeries consol_days d.close).getD i false
               breakoutVolumeFlag := (breakoutVolumeSeries d.volume).getD i false
               volume := d.volume.getD i 0 }
      else none)

/-- `_analyze_stock` with the dead `vol_decline` computation removed,
otherwise identical; used only to state that the signal is unused. -/
def analyze_stock_noVolDecline (ticker : Ticker) (d : TickerData)
    (prior_days consol_days : ℕ)
    (min_rise_22 min_rise_67 max_range min_adr : ℚ) : Option (List ScreenRow) :=
  if d.dates.length < prior_days + consol_days + 30 then none
  else
    let mask := screenMask d prior_days consol_days
      min_rise_22 min_rise_67 max_range min_adr
    if !mask.any id then none
    else some ((List.range d.dates.length).filterMap fun i =>
      if mask.getD i false then
        some { ticker := ticker
               date := d.dates.getD i ""
               price := d.close.getD i 0
               rise22 := (riseSeries 22 d.close).getD i none
               rise67 := (riseSeries 67 d.close).getD i none
               consRange := (consRangeSeries consol_days d.close).getD i none
               adr := (adrSeries prior_days d.high d.low d.close).getD i none
               breakoutFlag := (breakoutSeries consol_days d.close).getD i false
               breakoutVolumeFlag := (breakoutVolumeSeries d.volume).getD i false
               volume := d.volume.getD i 0 }
      else none)

/-- `StockScreener.screen_stocks` (lines 15–59) after the per-ticker
fetch: one `_analyze_stock` job per stored ticker, `None` results
dropped, the rest concatenated (`pd.concat`).  The worker pool runs the
jobs on independent inputs and collects them in submission order, so
the sequential fold is its functional behaviour. -/
def screen_stocks (entries : List (Ticker × TickerData)) (prior_days consol_days : ℕ)
    (min_rise_22 min_rise_67 max_range min_adr : ℚ) : List ScreenRow :=
  (entries.filterMap fun e =>
    analyze_stock e.1 e.2 prior_days consol_days
      min_rise_22 min_rise_67 max_range min_adr).flatten

/-! ## The multi-source fetcher (`src/data_fetcher.py`)

`_fetch_yfinance` / `_fetch_alpha_vantage` are network calls; each run
of one is abstracted as an oracle outcome: it either raises (`exn`,
absorbed by the `except` in `fetch_data`) or returns an
`Option DataFrame` (`none` when the provider had nothing, including the
helpers' own empty-result normalisation).  A DataFrame here is its list
of bars; `data.empty` is emptiness of that list. -/

/-- Outcome of one provider call at one (attempt, source) position. -/
inductive FetchOutcome where
  | exn : FetchOutcome
  | ok : Option (List Bar) → FetchOutcome
  deriving DecidableEq, Repr

/-- Environment of a `DataFetcher`: whether `alpha_vantage_key` is set,
and the oracle giving each provider call's outcome, keyed by attempt
index and source name. -/
structure FetchEnv where
  hasKey : Bool
  oracle : ℕ → String → FetchOutcome

/-- `self.source_priority` (line 16). -/
def source_priority : List String := ["yfinance", "alpha_vantage"]

/-- `self.source_stats` as a counter per source name (line 17). -/
abbrev Stats := String → ℕ

/-- `self.source_stats[source] += 1` (line 37). -/
def bumpStat (source : String) (st : Stats) : Stats :=
  fun s => if s = source then st s + 1 else st s

/-- `data is not None and not data.empty` (line 36). -/
def checkData : Option (List Bar) → Bool
  | some d => !d.isEmpty
  | none => false

/-- The body of one inner-loop iteration up to the success test
(lines 31–34): `some cur'` is the value of the `data` variable after
the (possibly skipped) assignment, `none` means the provider raised and
control jumps to the `except` arm.  When the source is `alpha_vantage`
without a key, no branch assigns and `data` keeps its previous value. -/
def trySource (env : FetchEnv) (attempt : ℕ) (source : String)
    (cur : Option (List Bar)) : Option (Option (List Bar)) :=
  if source = "yfinance" then
    match env.oracle attempt source with
    | .exn => none
    | .ok d => some d
  else if source = "alpha_vantage" ∧ env.hasKey then
    match env.oracle attempt source with
    | .exn => none
    | .ok d => some d
  else some cur

/-- The inner `for source in self.source_priority` loop of one attempt
(lines 29–44), threading the `data` variable and the stats; a raised
exception skips the success test and moves to the next source. -/
def fetchSources (env : FetchEnv) (attempt : ℕ) :
    List String → Option (List Bar) → Stats →
    Option (Option (List Bar) × String) × Option (List Bar) × Stats
  | [], cur, st => (none, cur, st)
  | source :: rest, cur, st =>
    match trySource env attempt source cur with
    | none => fetchSources env attempt rest cur st
    | some cur' =>
      if checkData cur' then (some (cur', source), cur', bumpStat source st)
      else fetchSources env attempt rest cur' st

/-- The outer `for attempt in range(retries)` loop; falling off the end
reaches `return None, "failed"` (line 47). -/
def fetchAttempts (env : FetchEnv) :
    List ℕ → Option (List Bar) → Stats → (Option (List Bar) × String) × Stats
  | [], _, st => ((none, "failed"), st)
  | a :: rest, cur, st =>
    match fetchSources env a source_priority cur st with
    | (some r, _, st') => (r, st')
    | (none, cur', st') => fetchAttempts env rest cur' st'

/-- `DataFetcher.fetch_data` (lines 19–47).  The Python `data` variable
starts unbound; reading it unassigned raises, which the `except` arm
absorbs exactly like a skipped iteration, so the unbound start is
modelled as `none` (which fails the success test the same way).
Exceptions never escape: the function always returns a value. -/
def fetch_data (env : FetchEnv) (retries : ℕ) (st : Stats) :
    (Option (List Bar) × String) × Stats :=
  fetchAttempts env (List.range retries) none st

/-- A provider call that yielded no data: it raised, or returned
nothing, or returned an empty frame. -/
def noDataOutcome (o : FetchOutcome) : Prop :=
  o = .exn ∨ o = .ok none ∨ o = .ok (some [])

/-- Every provider call raises, key present. -/
def c3EnvFail : FetchEnv := ⟨true, fun _ _ => .exn⟩

/-- Every provider call returns one bar, no alpha-vantage key. -/
def c3EnvOk : FetchEnv :=
  ⟨false, fun _ _ => .ok (some [⟨"2024-01-05", 10, 12, 9, 11, 11, 100⟩])⟩

/-- A fresh fetcher's counters: zero for every source. -/
def zeroStats : Stats := fun _ => 0

/-! ## The write lock (`src/database.py` line 108)

`update_ticker_data` runs its whole write sequence — the indicator
mutation, the `executemany` bar upsert and the metadata overwrite —
under `with self.lock, sqlite3.connect(...)`, where `self.lock` is the
single `threading.Lock` of the `StockDatabase` object (line 28; the app
creates one such object per process).  Two concurrent calls are
modelled as two threads each running the critical-section program
acquire → bar-upsert → metadata-write → release, with the usual lock
semantics: acquire blocks while the lock is held. -/

/-- Thread identifier for two concurrent `update_ticker_data` calls. -/
abbrev Tid := Bool

/-- Observable actions of one `update_ticker_data` call. -/
inductive DbAct where
  | acquire : DbAct
  | barUpsert : DbAct
  | metaWrite : DbAct
  | release : DbAct
  deriving DecidableEq, Repr

/-- Scheduler state: each thread's position in the four-step program,
and the lock holder. -/
structure LockSt where
  pcs : Tid → ℕ
  holder : Option Tid

/-- Program-counter update for one thread. -/
def setPc (s : LockSt) (t : Tid) (n : ℕ) : LockSt :=
  { s with pcs := fun u => if u = t then n else s.pcs u }

/-- One interleaving step: `acquire` requires the lock free; the two
writes and the `release` are the successive statements of the `with`
block, so they run only from the matching program position. -/
inductive LStep : LockSt → Tid × DbAct → LockSt → Prop where
  | acq (s : LockSt) (t : Tid) :
      s.pcs t = 0 → s.holder = none →
      LStep s (t, .acquire) { setPc s t 1 with holder := some t }
  | bar (s : LockSt) (t : Tid) :
      s.pcs t = 1 → LStep s (t, .barUpsert) (setPc s t 2)
  | meta (s : LockSt) (t : Tid) :
      s.pcs t = 2 → LStep s (t, .metaWrite) (setPc s t 3)
  | rel (s : LockSt) (t : Tid) :
      s.pcs t = 3 →
      LStep s (t, .release) { setPc s t 4 with holder := none }

/-- A finite execution: the list of events of an interleaving of the
two calls. -/
inductive LSteps : LockSt → List (Tid × DbAct) → LockSt → Prop where
  | nil (s : LockSt) : LSteps s [] s
  | cons {s s' s'' : LockSt} {e : Tid × DbAct} {tr : List (Tid × DbAct)} :
      LStep s e s' → LSteps s' tr s'' → LSteps s (e :: tr) s''

/-- Both calls poised to run, lock free. -/
def lockInit : LockSt := ⟨fun _ => 0, none⟩

/-- Whether an action is one of the two writes of the critical section. -/
def isWrite : DbAct → Bool
  | .barUpsert => true
  | .metaWrite => true
  | _ => false

/-- No event of `mid` is a write by the thread other than `t`. -/
def nonInterleaving (t : Tid) (mid : List (Tid × DbAct)) : Bool :=
  mid.all fun e => !isWrite e.2 || (e.1 == t)

/-- The lock discipline's invariant: a thread whose program counter is
inside the `with self.lock` block holds the lock. -/
def LInv (s : LockSt) : Prop :=
  ∀ t : Tid, 1 ≤ s.pcs t ∧ s.pcs t ≤ 3 → s.holder = some t

/-- One full uncontended `update_ticker_data` critical section by
thread `true`. -/
def c8Trace : List (Tid × DbAct) :=
  [(true, .acquire), (true, .barUpsert), (true, .metaWrite), (true, .release)]

/-- The states such a run passes through. -/
def c8S1 : LockSt := { setPc lockInit true 1 with holder := some true }

def c8S2 : LockSt := setPc c8S1 true 2

def c8S3 : LockSt := setPc c8S2 true 3

def c8Final : LockSt := { setPc c8S3 true 4 with holder := none }

/-- No emitted screen row carries ticker `t`. -/
def noRowsFor (t : Ticker) (rows : List ScreenRow) : Bool :=
  rows.all fun r => r.ticker != t

/-- The value the last record with key `k` carries, if any: this is what
a left-to-right replace-on-conflict load leaves behind for `k`. -/
def lastVal [DecidableEq K] : List (K × V) → K → Option V
  | [], _ => none
  | kv :: l, k =>
    match lastVal l k with
    | some v => some v
    | none => if k = kv.1 then some kv.2 else none

/-! ## Concrete scenario data used by counterexamples and witnesses -/

/-- A one-bar series whose last bar is dated 2024-01-05. -/
def c1Df : DataFrame := ⟨[⟨"2024-01-05", 10, 12, 9, 11, 11, 100⟩], none⟩

/-- The database after `get_ticker_last_updated("AAPL")` was called once
on a fresh store (the call memoises the `None` answer). -/
def c1SysAfterGet : Sys := (get_ticker_last_updated initSys "AAPL").2

/-- The database of `c1SysAfterGet` after a subsequent successful
update with `c1Df`. -/
def c1SysAfterUpdate : Sys :=
  (update_ticker_data c1SysAfterGet "AAPL" c1Df "yfinance").2.1

/-- A one-bar stored history: far shorter than any admissible lookback. -/
def c4Data : TickerData := ⟨["2024-01-02"], [1], [1], [1], [1]⟩

/-- Witness universe for C4. -/
def c4Entries : List (Ticker × TickerData) := [("AAPL", c4Data)]

/-- A 68-bar synthetic history: constant close 1, high 2, low 1,
volume 1, dates D0…D67.  Every derived signal is constant once defined;
its consolidation range is exactly 0%. -/
def c5Data : TickerData :=
  { dates := (List.range 68).map (fun i => "D" ++ toString i)
    high := List.replicate 68 2
    low := List.replicate 68 1
    close := List.replicate 68 1
    volume := List.replicate 68 1 }

/-- The single row `_analyze_stock` emits for `c5Data` with
`prior_days = 1`, `consol_days = 2` and all four thresholds `0`:
index 67 is the only date where `rise_67` is defined. -/
def c5Row : ScreenRow :=
  { ticker := "T", date := "D67", price := 1, rise22 := some 0, rise67 := some 0
    consRange := some 0, adr := some 100, breakoutFlag := false
    breakoutVolumeFlag := false, volume := 1 }

/-! ## General lemmas about the embedding's primitives -/

theorem getD_map_range (f : ℕ → α) (n i : ℕ) (d : α) :
    ((List.range n).map f).getD i d = if i < n then f i else d := by
  by_cases h : i < n
  · simp [List.getD_eq_getElem?_getD, List.getElem?_map, List.getElem?_range h, h]
  · simp [List.getD_eq_getElem?_getD, List.getElem?_eq_none, Nat.le_of_not_lt h, h]

theorem getD_of_length_le (l : List α) (i : ℕ) (d : α) (h : l.length ≤ i) :
    l.getD i d = d := by
  simp [List.getD_eq_getElem?_getD, List.getElem?_eq_none h]

theorem upsertAll_lookup [DecidableEq K] (l : List (K × V)) (m : K → Option V) (k : K) :
    upsertAll m l k = match lastVal l k with
      | some v => some v
      | none => m k := by
  induction l generalizing m with
  | nil => rfl
  | cons kv l ih =>
    show upsertAll (upsert m kv) l k = _
    rw [ih]
    cases h : lastVal l k with
    | some v => simp [lastVal, h]
    | none =>
      simp only [lastVal, h, upsert]
      by_cases hk : k = kv.1 <;> simp [hk]

/-- Reloading the same record list over an already-loaded table changes
nothing: the replace-on-conflict load is idempotent. -/
theorem upsertAll_idem [DecidableEq K] (m : K → Option V) (l : List (K × V)) :
    upsertAll (upsertAll m l) l = upsertAll m l := by
  funext k
  rw [upsertAll_lookup l (upsertAll m l) k]
  cases h : lastVal l k with
  | some v => rw [upsertAll_lookup l m k, h]
  | none => rfl

/-- With pairwise-distinct keys, two members sharing a key are equal in
the second component. -/
theorem nodup_keys_eq {l : List (α × β)} (h : (l.map Prod.fst).Nodup)
    {a : α} {b c : β} (h1 : (a, b) ∈ l) (h2 : (a, c) ∈ l) : b = c := by
  induction l with
  | nil => cases h1
  | cons x xs ih =>
    rw [List.map_cons, List.nodup_cons] at h
    rcases List.mem_cons.mp h1 with h1' | h1'
    · rcases List.mem_cons.mp h2 with h2' | h2'
      · rw [← h1'] at h2'; exact congrArg Prod.snd h2'.symm
      · exfalso
        exact h.1 (h1' ▸ (List.mem_map.mpr ⟨(a, c), h2', rfl⟩))
    · rcases List.mem_cons.mp h2 with h2' | h2'
      · exfalso
        exact h.1 (h2' ▸ (List.mem_map.mpr ⟨(a, b), h1', rfl⟩))
      · exact ih h.2 h1' h2'

/-! ## Claim C7 — empty input -/

/-- C7: for every ticker, `update_ticker_data` called with an empty bar
series returns `False` and performs no write: the whole database state
(both tables, and the memo cache) and the caller's DataFrame are
exactly as they were before the call. -/
theorem update_ticker_data_empty_noop (s : Sys) (t : Ticker) (d : DataFrame)
    (src : String) (h : d.bars = []) :
    update_ticker_data s t d src = (false, s, d) := by
  simp [update_ticker_data, h]

/-- Witness for C7 at a concrete empty DataFrame. -/
theorem update_ticker_data_empty_noop_witness :
    update_ticker_data initSys "AAPL" ⟨[], none⟩ "yfinance"
      = (false, initSys, ⟨[], none⟩) :=
  update_ticker_data_empty_noop initSys "AAPL" ⟨[], none⟩ "yfinance" rfl

/-! ## Claim C6 — `vol_decline` is dead -/

/-- C6: the `vol_decline` signal is computed but never used: on every
input and every threshold setting `_analyze_stock` returns exactly what
the same code with the `vol_decline` computation deleted returns, so
neither the selected dates nor any emitted column depends on it. -/
theorem analyze_stock_vol_decline_unused (t : Ticker) (d : TickerData)
    (prior_days consol_days : ℕ) (min_rise_22 min_rise_67 max_range min_adr : ℚ) :
    analyze_stock t d prior_days consol_days
        min_rise_22 min_rise_67 max_range min_adr
      = analyze_stock_noVolDecline t d prior_days consol_days
        min_rise_22 min_rise_67 max_range min_adr := rfl

/-! ## Claim C2 — idempotent update -/

/-- C2: `update_ticker_data` is idempotent on storage: running the same
call again (on the DataFrame object the first call left behind, whose
bars are unchanged) leaves the `stocks` table, the `metadata` table and
the rest of the state exactly as after the first call — each
`(Date, Ticker)` key holds one replaced row. -/
theorem update_ticker_data_idempotent (s : Sys) (t : Ticker) (d : DataFrame)
    (src : String) (h : d.bars ≠ []) :
    (update_ticker_data (update_ticker_data s t d src).2.1 t
        (update_ticker_data s t d src).2.2 src).2.1
      = (update_ticker_data s t d src).2.1 := by
  have hne : d.bars.isEmpty = false := by simpa using h
  simp only [update_ticker_data, hne, Bool.false_eq_true, if_false]
  rw [Sys.mk.injEq]
  refine ⟨upsertAll_idem _ _, ?_, rfl⟩
  funext t'
  by_cases ht : t' = t <;> simp [ht]

/-- Witness for C2 at a one-bar series. -/
theorem update_ticker_data_idempotent_witness :
    (update_ticker_data
        (update_ticker_data initSys "AAPL" ⟨[⟨"2024-01-05", 10, 12, 9, 11, 11, 100⟩], none⟩ "yfinance").2.1
        "AAPL"
        (update_ticker_data initSys "AAPL" ⟨[⟨"2024-01-05", 10, 12, 9, 11, 11, 100⟩], none⟩ "yfinance").2.2
        "yfinance").2.1
      = (update_ticker_data initSys "AAPL" ⟨[⟨"2024-01-05", 10, 12, 9, 11, 11, 100⟩], none⟩ "yfinance").2.1 :=
  update_ticker_data_idempotent initSys "AAPL" _ "yfinance" (by decide)

/-! ## Claim C10 — the caller's DataFrame is mutated -/

/-- C10: `update_ticker_data` mutates its caller's DataFrame in place:
on any non-empty series (that does not already carry the indicator
block) the caller's object ends up with the six added columns `MA10`,
`EMA12`, `EMA26`, `MACD`, `MACD_Signal`, `MACD_Hist` — the six fields
of `Indicators` — and is not left unchanged. -/
theorem update_ticker_data_mutates_frame (s : Sys) (t : Ticker) (d : DataFrame)
    (src : String) (hne : d.bars ≠ []) (hind : d.indicators = none) :
    (update_ticker_data s t d src).2.2
        = { bars := d.bars, indicators := some (computeIndicators d.bars) } ∧
      (update_ticker_data s t d src).2.2 ≠ d := by
  have hne' : d.bars.isEmpty = false := by simpa using hne
  have hmut : (update_ticker_data s t d src).2.2
      = { bars := d.bars, indicators := some (computeIndicators d.bars) } := by
    simp [update_ticker_data, hne']
  refine ⟨hmut, fun hEq => ?_⟩
  have h2 := congrArg DataFrame.indicators (hmut.symm.trans hEq)
  rw [hind] at h2
  exact Option.noConfusion h2

/-- Witness for C10 at a one-bar raw DataFrame. -/
theorem update_ticker_data_mutates_frame_witness :
    (update_ticker_data initSys "AAPL" ⟨[⟨"2024-01-05", 10, 12, 9, 11, 11, 100⟩], none⟩ "yfinance").2.2
        = { bars := [⟨"2024-01-05", 10, 12, 9, 11, 11, 100⟩],
            indicators := some (computeIndicators [⟨"2024-01-05", 10, 12, 9, 11, 11, 100⟩]) } ∧
      (update_ticker_data initSys "AAPL" ⟨[⟨"2024-01-05", 10, 12, 9, 11, 11, 100⟩], none⟩ "yfinance").2.2
        ≠ ⟨[⟨"2024-01-05", 10, 12, 9, 11, 11, 100⟩], none⟩ :=
  update_ticker_data_mutates_frame initSys "AAPL" _ "yfinance" (by decide) rfl

/-! ## Claim C1 — last-updated after update

The claim as stated fails on the code: `get_ticker_last_updated` is
memoised with `@lru_cache` and nothing invalidates the memo on update
(`database.py` lines 86–96, 137–145), so a lookup made before the
update pins the stale value forever. -/

/-- Counterexample to C1 as stated: `get_ticker_last_updated` is called
for "AAPL", then `update_ticker_data` succeeds with a series whose last
bar is dated 2024-01-05, yet the next lookup still does not return
2024-01-05 (the memoised pre-update answer is returned instead). -/
theorem c1_stale_cache_counterexample :
    (update_ticker_data c1SysAfterGet "AAPL" c1Df "yfinance").1 = true ∧
      lastBarDate c1Df.bars = "2024-01-05" ∧
      (get_ticker_last_updated c1SysAfterUpdate "AAPL").1 ≠ some "2024-01-05" := by
  refine ⟨rfl, rfl, ?_⟩
  decide

/-- C1 (amended): after a successful `update_ticker_data(ticker, bars,
source)`, `get_ticker_last_updated(ticker)` returns the date of the
last bar of the series — provided `get_ticker_last_updated(ticker)`
holds no memoised entry for that ticker at the time of the update (in
particular when it was never called for it before). -/
theorem get_last_updated_after_update (s : Sys) (t : Ticker) (d : DataFrame)
    (src : String) (hc : s.cache t = none) (hne : d.bars ≠ []) :
    (update_ticker_data s t d src).1 = true ∧
      (get_ticker_last_updated (update_ticker_data s t d src).2.1 t).1
        = some (lastBarDate d.bars) := by
  have hne' : d.bars.isEmpty = false := by simpa using hne
  constructor
  · simp [update_ticker_data, hne']
  · simp [update_ticker_data, hne', get_ticker_last_updated, hc]

/-- Witness for the amended C1 on a fresh store. -/
theorem get_last_updated_after_update_witness :
    (update_ticker_data initSys "AAPL" c1Df "yfinance").1 = true ∧
      (get_ticker_last_updated (update_ticker_data initSys "AAPL" c1Df "yfinance").2.1 "AAPL").1
        = some (lastBarDate c1Df.bars) :=
  get_last_updated_after_update initSys "AAPL" c1Df "yfinance" rfl (by decide)

/-! ## Claim C4 — short histories are skipped, not errored -/

/-- A history shorter than `prior + consol + 30` bars makes
`_analyze_stock` return `None` (the skip branch at lines 74–76). -/
theorem analyze_stock_short (t : Ticker) (d : TickerData) (p c : ℕ)
    (m1 m2 m3 m4 : ℚ) (h : d.dates.length < p + c + 30) :
    analyze_stock t d p c m1 m2 m3 m4 = none := by
  simp [analyze_stock, h]

/-- Every row `_analyze_stock` emits carries the analysed ticker. -/
theorem analyze_rows_ticker {t : Ticker} {d : TickerData} {p c : ℕ}
    {m1 m2 m3 m4 : ℚ} {rows : List ScreenRow}
    (h : analyze_stock t d p c m1 m2 m3 m4 = some rows) :
    ∀ r ∈ rows, r.ticker = t := by
  simp only [analyze_stock] at h
  split at h
  · cases h
  · split at h
    · cases h
    · obtain rfl := Option.some_inj.mp h
      intro r hr
      rcases List.mem_filterMap.mp hr with ⟨i, _, hf⟩
      split at hf
      · cases Option.some_inj.mp hf
        rfl
      · cases hf

/-- C4: a ticker whose fetched history has fewer than
`prior_days + consol_days + 30` rows contributes no row to the
`screen_stocks` output (a skip, not an error), for any distinct-key
ticker universe. -/
theorem screen_stocks_skips_short (entries : List (Ticker × TickerData))
    (p c : ℕ) (m1 m2 m3 m4 : ℚ) (t : Ticker) (d : TickerData)
    (hmem : (t, d) ∈ entries) (hnd : (entries.map Prod.fst).Nodup)
    (hshort : d.dates.length < p + c + 30) :
    noRowsFor t (screen_stocks entries p c m1 m2 m3 m4) = true := by
  rw [noRowsFor, List.all_eq_true]
  intro r hr
  rw [screen_stocks] at hr
  rcases List.mem_flatten.mp hr with ⟨rows, hrows, hrmem⟩
  rcases List.mem_filterMap.mp hrows with ⟨⟨e1, e2⟩, he, hsome⟩
  have hticker : r.ticker = e1 := analyze_rows_ticker hsome r hrmem
  rw [bne_iff_ne]
  intro hEq
  have he1 : e1 = t := by rw [← hticker, hEq]
  rw [he1] at he
  have he2 : e2 = d := nodup_keys_eq hnd he hmem
  rw [he1, he2] at hsome
  rw [analyze_stock_short t d p c m1 m2 m3 m4 hshort] at hsome
  cases hsome

/-- Witness for C4 at the default thresholds. -/
theorem screen_stocks_skips_short_witness :
    noRowsFor "AAPL" (screen_stocks c4Entries 20 10 10 40 10 2) = true :=
  screen_stocks_skips_short c4Entries 20 10 10 40 10 2 "AAPL" c4Data
    (by decide) (by decide) (by decide)

/-! ## Claim C5 — the filter mask and its inclusive thresholds -/

theorem length_shift (n : ℕ) (xs : List α) : (shift n xs).length = xs.length := by
  simp [shift]

theorem length_riseSeries (n : ℕ) (close : List ℚ) :
    (riseSeries n close).length = close.length := by
  simp [riseSeries, ozipWith, toOpt, length_shift]

/-- C5: the filter mask entry at every index is the conjunction of
exactly `rise_22 ≥ min_rise_22`, `rise_67 ≥ min_rise_67`,
`consolidation_range ≤ max_range` and `adr ≥ min_adr` (out-of-range
indices read `false`); and the thresholds are inclusive: on `c5Data`
the consolidation range at the matched date is exactly `0`, so with
`max_range = 0` that date is emitted, while with threshold below the
value (`max_range = -1`, which `0` exceeds) no date survives. -/
theorem screen_mask_conjunction_inclusive :
    (∀ (d : TickerData) (p c : ℕ) (m1 m2 mr ma : ℚ) (i : ℕ),
        (screenMask d p c m1 m2 mr ma).getD i false
          = (ogeB ((riseSeries 22 d.close).getD i none) (some m1) &&
             ogeB ((riseSeries 67 d.close).getD i none) (some m2) &&
             oleB ((consRangeSeries c d.close).getD i none) (some mr) &&
             ogeB ((adrSeries p d.high d.low d.close).getD i none) (some ma))) ∧
      analyze_stock "T" c5Data 1 2 0 0 0 0 = some [c5Row] ∧
      analyze_stock "T" c5Data 1 2 0 0 (-1) 0 = none := by
  refine ⟨fun d p c m1 m2 mr ma i => ?_, ?_, ?_⟩
  · by_cases hi : i < d.close.length
    · rw [screenMask, getD_map_range, if_pos hi]
    · rw [screenMask, getD_map_range, if_neg hi]
      have h22 : (riseSeries 22 d.close).getD i none = none :=
        getD_of_length_le _ _ _ (by rw [length_riseSeries]; omega)
      rw [h22]
      rfl
  · set_option maxRecDepth 8000 in with_unfolding_all decide
  · set_option maxRecDepth 8000 in with_unfolding_all decide

/-! ## Claim C9 — the breakout flag's second conjunct is redundant -/

/-- C9: wherever the previous day's rolling high is defined, the
previous close is at most that rolling high (the previous close lies
inside the window the rolling maximum ranges over), so the second
conjunct of `breakout` always holds there and
`breakout = close > recent_high.shift(1)` at every index. -/
theorem breakout_second_conjunct_redundant :
    (∀ (w : ℕ) (close : List ℚ) (i : ℕ) (h : ℚ),
        ((shift 1 (rollingMax w close)).getD i none).join = some h →
        oleB ((shift 1 close).getD i none) (some h) = true) ∧
      ∀ (w : ℕ) (close : List ℚ),
        breakoutSeries w close = breakoutFirstConjunct w close := by
  have key : ∀ (w : ℕ) (close : List ℚ) (i : ℕ) (h : ℚ),
      ((shift 1 (rollingMax w close)).getD i none).join = some h →
      oleB ((shift 1 close).getD i none) (some h) = true := by
    intro w close i h hj
    rw [shift, getD_map_range] at hj
    have hlen : (rollingMax w close).length = close.length := by simp [rollingMax]
    by_cases hi : i < (rollingMax w close).length
    case neg => rw [if_neg hi] at hj; cases hj
    rw [if_pos hi] at hj
    by_cases h1 : 1 ≤ i
    case neg => rw [if_neg h1] at hj; cases hj
    rw [if_pos h1] at hj
    have hi' : i - 1 < (rollingMax w close).length := by omega
    rw [List.getElem?_eq_getElem hi'] at hj
    have hrm : (rollingMax w close)[i-1] = some h := by simpa using hj
    simp only [rollingMax, List.getElem_map, List.getElem_range] at hrm
    by_cases hw : 0 < w ∧ w ≤ (i-1)+1
    case neg => rw [if_neg hw] at hrm; cases hrm
    rw [if_pos hw] at hrm
    have hclen : i - 1 < close.length := by omega
    have hmem : close[i-1] ∈ window w (i-1) close := by
      rw [window]
      refine List.mem_iff_getElem?.mpr ⟨w - 1, ?_⟩
      rw [List.getElem?_drop]
      have hidx : (i-1)+1-w + (w-1) = i-1 := by omega
      rw [hidx, List.getElem?_take, if_pos (by omega), List.getElem?_eq_getElem hclen]
    have hle' := List.le_maximum_of_mem' hmem
    rw [hrm] at hle'
    have hle : close[i-1] ≤ h := by
      rw [(WithBot.some_eq_coe h :)] at hle'
      exact_mod_cast hle'
    rw [shift, getD_map_range, if_pos (show i < close.length by omega), if_pos h1,
      List.getElem?_eq_getElem hclen]
    simp [oleB, hle]
  refine ⟨key, fun w close => ?_⟩
  simp only [breakoutSeries, breakoutFirstConjunct]
  apply List.map_congr_left
  intro i _
  have ogtB_none_right : ∀ x, ogtB x none = false := fun x => by cases x <;> rfl
  have oleB_none_right : ∀ x, oleB x none = false := fun x => by cases x <;> rfl
  cases hj : ((shift 1 (rollingMax w close)).getD i none).join with
  | none => rw [ogtB_none_right, oleB_none_right, Bool.false_and]
  | some h2 => rw [key w close i h2 hj, Bool.and_true]

/-- Witness for C9 on the concrete series [1, 2, 3] with window 2 at
index 2: the shifted rolling high is defined (= 2), the previous close
2 satisfies the second conjunct, and the whole flag equals its first
conjunct. -/
theorem breakout_second_conjunct_redundant_witness :
    ((shift 1 (rollingMax 2 [(1:ℚ), 2, 3])).getD 2 none).join = some 2 ∧
      oleB ((shift 1 [(1:ℚ), 2, 3]).getD 2 none) (some 2) = true ∧
      breakoutSeries 2 [(1:ℚ), 2, 3] = breakoutFirstConjunct 2 [(1:ℚ), 2, 3] :=
  ⟨by with_unfolding_all decide,
    breakout_second_conjunct_redundant.1 2 [(1:ℚ), 2, 3] 2 2
      (by with_unfolding_all decide),
    breakout_second_conjunct_redundant.2 2 [(1:ℚ), 2, 3]⟩

/-! ## Claim C3 — fetch failure signal and source counters -/

/-- When an inner-loop iteration leaves `data` assigned, it either kept
the previous value or holds exactly what the provider returned. -/
theorem trySource_some {env : FetchEnv} {a : ℕ} {s : String}
    {cur cur' : Option (List Bar)} (h : trySource env a s cur = some cur') :
    cur' = cur ∨ env.oracle a s = .ok cur' := by
  unfold trySource at h
  split at h
  · cases ho : env.oracle a s with
    | exn => rw [ho] at h; cases h
    | ok d => rw [ho] at h; cases Option.some_inj.mp h; exact Or.inr rfl
  · split at h
    · cases ho : env.oracle a s with
      | exn => rw [ho] at h; cases h
      | ok d => rw [ho] at h; cases Option.some_inj.mp h; exact Or.inr rfl
    · cases Option.some_inj.mp h; exact Or.inl rfl

/-- One step of the inner source loop, as an equation. -/
theorem fetchSources_cons (env : FetchEnv) (a : ℕ) (s : String)
    (rest : List String) (cur : Option (List Bar)) (st : Stats) :
    fetchSources env a (s :: rest) cur st
      = match trySource env a s cur with
        | none => fetchSources env a rest cur st
        | some cur' =>
          if checkData cur' then (some (cur', s), cur', bumpStat s st)
          else fetchSources env a rest cur' st := rfl

/-- One step of the outer attempt loop, as an equation. -/
theorem fetchAttempts_cons (env : FetchEnv) (a : ℕ) (rest : List ℕ)
    (cur : Option (List Bar)) (st : Stats) :
    fetchAttempts env (a :: rest) cur st
      = match fetchSources env a source_priority cur st with
        | (some r, _, st') => (r, st')
        | (none, cur', st') => fetchAttempts env rest cur' st' := rfl

/-- One attempt over sources that all yield no data: no success, the
`data` variable still fails the success test, counters untouched. -/
theorem fetchSources_noData (env : FetchEnv) (a : ℕ) (srcs : List String)
    (cur : Option (List Bar)) (st : Stats) (hcur : checkData cur = false)
    (h : ∀ s, noDataOutcome (env.oracle a s)) :
    (fetchSources env a srcs cur st).1 = none ∧
      checkData (fetchSources env a srcs cur st).2.1 = false ∧
      (fetchSources env a srcs cur st).2.2 = st := by
  induction srcs generalizing cur with
  | nil => exact ⟨rfl, hcur, rfl⟩
  | cons s rest ih =>
    rw [fetchSources_cons]
    cases htr : trySource env a s cur with
    | none => exact ih cur hcur
    | some cur' =>
      have hcur' : checkData cur' = false := by
        rcases trySource_some htr with rfl | ho
        · exact hcur
        · rcases h s with h' | h' | h'
          · rw [ho] at h'; cases h'
          · rw [ho] at h'; cases h'; rfl
          · rw [ho] at h'; cases h'; rfl
      simp only [hcur', Bool.false_eq_true, if_false]
      exact ih cur' hcur'

/-- An inner loop that found no usable data leaves the counters as they
were. -/
theorem fetchSources_stats_of_none {env : FetchEnv} {a : ℕ} {srcs : List String}
    {cur : Option (List Bar)} {st : Stats}
    (h : (fetchSources env a srcs cur st).1 = none) :
    (fetchSources env a srcs cur st).2.2 = st := by
  induction srcs generalizing cur with
  | nil => rfl
  | cons s rest ih =>
    rw [fetchSources_cons] at h ⊢
    revert h
    cases htr : trySource env a s cur with
    | none => exact fun h => ih h
    | some cur' =>
      show (if checkData cur' then (some (cur', s), cur', bumpStat s st)
              else fetchSources env a rest cur' st).1 = none →
          (if checkData cur' then (some (cur', s), cur', bumpStat s st)
              else fetchSources env a rest cur' st).2.2 = st
      by_cases hc : checkData cur' = true
      · rw [hc]
        intro h
        cases h
      · rw [Bool.not_eq_true] at hc
        simp only [hc, Bool.false_eq_true, if_false]
        exact fun h => ih h

/-- A successful inner loop bumps exactly the counter of the source it
returns. -/
theorem fetchSources_stats_of_success {env : FetchEnv} {a : ℕ} {srcs : List String}
    {cur r : Option (List Bar)} {st : Stats} {src' : String}
    (h : (fetchSources env a srcs cur st).1 = some (r, src')) :
    (fetchSources env a srcs cur st).2.2 = bumpStat src' st := by
  induction srcs generalizing cur with
  | nil => cases h
  | cons s rest ih =>
    rw [fetchSources_cons] at h ⊢
    revert h
    cases htr : trySource env a s cur with
    | none => exact fun h => ih h
    | some cur' =>
      show (if checkData cur' then (some (cur', s), cur', bumpStat s st)
              else fetchSources env a rest cur' st).1 = some (r, src') →
          (if checkData cur' then (some (cur', s), cur', bumpStat s st)
              else fetchSources env a rest cur' st).2.2 = bumpStat src' st
      by_cases hc : checkData cur' = true
      · rw [hc]
        intro h
        cases Option.some_inj.mp h
        rfl
      · rw [Bool.not_eq_true] at hc
        simp only [hc, Bool.false_eq_true, if_false]
        exact fun h => ih h

/-- All attempts exhausted over no-data sources: the failure sentinel
comes back and the counters are untouched. -/
theorem fetchAttempts_noData (env : FetchEnv) (attempts : List ℕ)
    (cur : Option (List Bar)) (st : Stats) (hcur : checkData cur = false)
    (h : ∀ a s, noDataOutcome (env.oracle a s)) :
    fetchAttempts env attempts cur st = ((none, "failed"), st) := by
  induction attempts generalizing cur with
  | nil => rfl
  | cons a rest ih =>
    have h3 := fetchSources_noData env a source_priority cur st hcur (fun s => h a s)
    rw [fetchAttempts_cons]
    rcases hfs : fetchSources env a source_priority cur st with ⟨r1, cur', st'⟩
    rw [hfs] at h3
    obtain ⟨h1, h2, hst⟩ := h3
    have h1' : r1 = none := h1
    have h2' : checkData cur' = false := h2
    have hst' : st' = st := hst
    subst h1' hst'
    exact ih cur' h2'

/-- A successful run bumps exactly the returned source's counter. -/
theorem fetchAttempts_stats_of_success {env : FetchEnv} {attempts : List ℕ}
    {cur d : Option (List Bar)} {st : Stats} {src' : String}
    (h : (fetchAttempts env attempts cur st).1 = (d, src'))
    (hd : d.isSome = true) :
    (fetchAttempts env attempts cur st).2 = bumpStat src' st := by
  induction attempts generalizing cur with
  | nil =>
    exfalso
    have h1 : (none : Option (List Bar)) = d := congrArg Prod.fst h
    rw [← h1] at hd
    cases hd
  | cons a rest ih =>
    rw [fetchAttempts_cons] at h ⊢
    rcases hfs : fetchSources env a source_priority cur st with ⟨r1, cur', st'⟩
    rw [hfs] at h
    cases r1 with
    | some r =>
      have h' : r = (d, src') := h
      subst h'
      have hsucc : (fetchSources env a source_priority cur st).1
          = some (d, src') := by rw [hfs]
      have hbump := fetchSources_stats_of_success hsucc
      rw [hfs] at hbump
      exact hbump
    | none =>
      have hnone : (fetchSources env a source_priority cur st).1 = none := by
        rw [hfs]
      have hst := fetchSources_stats_of_none hnone
      rw [hfs] at hst
      have hst' : st' = st := hst
      subst hst'
      exact ih h

/-- C3: `fetch_data` with every provider call yielding no data
(exception or empty frame) returns the sentinel `(None, "failed")` —
no exception escapes, since the function is total — and leaves every
per-source counter unchanged; conversely whenever it returns non-null
data it bumps exactly the returned source's counter by one. -/
theorem fetch_data_failure_and_stats :
    (∀ (env : FetchEnv) (retries : ℕ) (st : Stats),
        (∀ a s, noDataOutcome (env.oracle a s)) →
        fetch_data env retries st = ((none, "failed"), st)) ∧
      ∀ (env : FetchEnv) (retries : ℕ) (st : Stats) (d : List Bar) (src' : String),
        (fetch_data env retries st).1 = (some d, src') →
        (fetch_data env retries st).2 = bumpStat src' st := by
  constructor
  · intro env retries st h
    exact fetchAttempts_noData env (List.range retries) none st rfl h
  · intro env retries st d src' h
    exact fetchAttempts_stats_of_success h rfl

/-- Witness for C3: a two-retry run where every call raises returns the
sentinel with untouched counters; a run whose first yfinance call
succeeds bumps exactly the yfinance counter. -/
theorem fetch_data_failure_and_stats_witness :
    fetch_data c3EnvFail 2 zeroStats = ((none, "failed"), zeroStats) ∧
      (fetch_data c3EnvOk 1 zeroStats).2 = bumpStat "yfinance" zeroStats :=
  ⟨fetch_data_failure_and_stats.1 c3EnvFail 2 zeroStats (fun _ _ => Or.inl rfl),
    fetch_data_failure_and_stats.2 c3EnvOk 1 zeroStats
      [⟨"2024-01-05", 10, 12, 9, 11, 11, 100⟩] "yfinance"
      (by with_unfolding_all decide)⟩

/-! ## Claim C8 — writes of concurrent updates never interleave -/

theorem setPc_pcs_self (s : LockSt) (t : Tid) (n : ℕ) : (setPc s t n).pcs t = n := by
  simp [setPc]

theorem setPc_pcs_other (s : LockSt) (t : Tid) (n : ℕ) (u : Tid) (h : u ≠ t) :
    (setPc s t n).pcs u = s.pcs u := by
  simp [setPc, h]

/-- The lock invariant is preserved by every interleaving step. -/
theorem linv_step {s s' : LockSt} {e : Tid × DbAct}
    (hs : LStep s e s') (hi : LInv s) : LInv s' := by
  cases hs with
  | acq t h0 hn =>
    intro u hu
    by_cases hut : u = t
    · subst hut; rfl
    · exfalso
      rw [show ({ setPc s t 1 with holder := some t } : LockSt).pcs
            = (setPc s t 1).pcs from rfl, setPc_pcs_other s t 1 u hut] at hu
      rw [hi u hu] at hn
      cases hn
  | bar t h1 =>
    intro u hu
    by_cases hut : u = t
    · subst hut
      exact hi u ⟨by omega, by omega⟩
    · rw [setPc_pcs_other s t 2 u hut] at hu
      exact hi u hu
  | meta t h2 =>
    intro u hu
    by_cases hut : u = t
    · subst hut
      exact hi u ⟨by omega, by omega⟩
    · rw [setPc_pcs_other s t 3 u hut] at hu
      exact hi u hu
  | rel t h3 =>
    intro u hu
    exfalso
    by_cases hut : u = t
    · subst hut
      rw [show ({ setPc s u 4 with holder := none } : LockSt).pcs
            = (setPc s u 4).pcs from rfl, setPc_pcs_self] at hu
      omega
    · rw [show ({ setPc s t 4 with holder := none } : LockSt).pcs
            = (setPc s t 4).pcs from rfl, setPc_pcs_other s t 4 u hut] at hu
      have hu' := hi u hu
      have ht' := hi t ⟨by omega, by omega⟩
      rw [hu'] at ht'
      exact hut (Option.some_inj.mp ht')

/-- The invariant holds along every execution from an invariant state. -/
theorem linv_steps {s s' : LockSt} {tr : List (Tid × DbAct)}
    (h : LSteps s tr s') (hi : LInv s) : LInv s' := by
  induction h with
  | nil => exact hi
  | cons hstep _ ih => exact ih (linv_step hstep hi)

theorem linv_init : LInv lockInit := by
  intro t ht
  have : lockInit.pcs t = 0 := rfl
  omega

/-- Program counters never move backwards. -/
theorem pcs_mono_step {s s' : LockSt} {e : Tid × DbAct}
    (h : LStep s e s') (t : Tid) : s.pcs t ≤ s'.pcs t := by
  cases h with
  | acq u h0 hn =>
    by_cases hut : t = u
    · subst hut
      rw [show ({ setPc s t 1 with holder := some t } : LockSt).pcs
            = (setPc s t 1).pcs from rfl, setPc_pcs_self, h0]
      omega
    · rw [show ({ setPc s u 1 with holder := some u } : LockSt).pcs
            = (setPc s u 1).pcs from rfl, setPc_pcs_other s u 1 t hut]
  | bar u h1 =>
    by_cases hut : t = u
    · subst hut; rw [setPc_pcs_self, h1]; omega
    · rw [setPc_pcs_other s u 2 t hut]
  | meta u h2 =>
    by_cases hut : t = u
    · subst hut; rw [setPc_pcs_self, h2]; omega
    · rw [setPc_pcs_other s u 3 t hut]
  | rel u h3 =>
    by_cases hut : t = u
    · subst hut
      rw [show ({ setPc s t 4 with holder := none } : LockSt).pcs
            = (setPc s t 4).pcs from rfl, setPc_pcs_self, h3]
      omega
    · rw [show ({ setPc s u 4 with holder := none } : LockSt).pcs
            = (setPc s u 4).pcs from rfl, setPc_pcs_other s u 4 t hut]

theorem pcs_mono_steps {s s' : LockSt} {tr : List (Tid × DbAct)}
    (h : LSteps s tr s') (t : Tid) : s.pcs t ≤ s'.pcs t := by
  induction h with
  | nil => exact Nat.le_refl _
  | cons hstep _ ih => exact Nat.le_trans (pcs_mono_step hstep t) ih

/-- An execution of a concatenated trace passes through a midpoint. -/
theorem lsteps_append_split {s s'' : LockSt} {l1 l2 : List (Tid × DbAct)}
    (h : LSteps s (l1 ++ l2) s'') : ∃ m, LSteps s l1 m ∧ LSteps m l2 s'' := by
  induction l1 generalizing s with
  | nil => exact ⟨s, LSteps.nil s, h⟩
  | cons e l1 ih =>
    cases h with
    | cons hstep hrest =>
      obtain ⟨m, hm1, hm2⟩ := ih hrest
      exact ⟨m, LSteps.cons hstep hm1, hm2⟩

/-- Executions compose. -/
theorem lsteps_append {s m s'' : LockSt} {l1 l2 : List (Tid × DbAct)}
    (h1 : LSteps s l1 m) (h2 : LSteps m l2 s'') : LSteps s (l1 ++ l2) s'' := by
  induction h1 with
  | nil => exact h2
  | cons hstep _ ih => exact LSteps.cons hstep (ih h2)

/-- C8: in every interleaved execution of concurrent
`update_ticker_data` calls from the initial state, no write (bar upsert
or metadata write) of one call falls between the bar upsert and the
metadata write of the other: the upsert-plus-metadata pair runs inside
one exclusive critical section of the shared `threading.Lock`. -/
theorem update_writes_not_interleaved (tr : List (Tid × DbAct)) (sEnd : LockSt)
    (hsteps : LSteps lockInit tr sEnd) (t : Tid)
    (pre mid post : List (Tid × DbAct))
    (htr : tr = pre ++ (t, DbAct.barUpsert) :: (mid ++ (t, DbAct.metaWrite) :: post)) :
    nonInterleaving t mid = true := by
  subst htr
  obtain ⟨m1, hpre, hrest⟩ := lsteps_append_split hsteps
  cases hrest with
  | cons hbar hrest2 =>
  obtain ⟨m3, hmid, hrest3⟩ := lsteps_append_split hrest2
  cases hrest3 with
  | cons hmeta hpost =>
  rw [nonInterleaving, List.all_eq_true]
  intro e he
  by_cases hw : isWrite e.2 = true
  case neg =>
    rw [Bool.not_eq_true] at hw
    rw [hw]
    rfl
  case pos =>
  rw [hw]
  rw [show (!true || (e.1 == t)) = (e.1 == t) from rfl, beq_iff_eq]
  -- Split the middle segment at the offending event.
  obtain ⟨ma, mb, hmaeq⟩ := List.append_of_mem he
  subst hmaeq
  obtain ⟨r1, hma, hrest4⟩ := lsteps_append_split hmid
  cases hrest4 with
  | cons hestep hmb =>
  -- Thread t sits at program counter 2 throughout the middle segment.
  have hm2pc : ∀ s2, LStep m1 (t, DbAct.barUpsert) s2 → s2.pcs t = 2 := by
    intro s2 hs2
    cases hs2 with
    | bar h1 => exact setPc_pcs_self m1 t 2
  have hm3pc : m3.pcs t = 2 := by
    cases hmeta
    assumption
  have hr1lo : 2 ≤ r1.pcs t := by
    have h2' := hm2pc _ hbar
    have := pcs_mono_steps hma t
    omega
  have hr1hi : r1.pcs t ≤ 2 := by
    have hmono1 := pcs_mono_step hestep t
    have hmono2 := pcs_mono_steps hmb t
    omega
  -- The state before the offending event is reachable, so the lock
  -- invariant holds there, and thread t holds the lock.
  have hreach : LSteps lockInit (pre ++ (t, DbAct.barUpsert) :: ma) r1 :=
    lsteps_append hpre (LSteps.cons hbar hma)
  have hinv : LInv r1 := linv_steps hreach linv_init
  have hholder : r1.holder = some t := hinv t ⟨by omega, by omega⟩
  -- The offending event is a write, so its thread also holds the lock.
  obtain ⟨u, a⟩ := e
  cases a with
  | acquire => cases hw
  | release => cases hw
  | barUpsert =>
    have hu : r1.pcs u = 1 := by
      cases hestep
      assumption
    have hholu : r1.holder = some u := hinv u ⟨by omega, by omega⟩
    rw [hholder] at hholu
    exact (Option.some_inj.mp hholu).symm
  | metaWrite =>
    have hu : r1.pcs u = 2 := by
      cases hestep
      assumption
    have hholu : r1.holder = some u := hinv u ⟨by omega, by omega⟩
    rw [hholder] at hholu
    exact (Option.some_inj.mp hholu).symm

/-- Witness for C8: the four-step uncontended run of one call is a
valid execution, and between its bar upsert and metadata write nothing
at all happens. -/
theorem update_writes_not_interleaved_witness :
    LSteps lockInit c8Trace c8Final ∧ nonInterleaving true [] = true := by
  have hsteps : LSteps lockInit c8Trace c8Final :=
    LSteps.cons (LStep.acq lockInit true rfl rfl)
      (LSteps.cons (LStep.bar c8S1 true rfl)
        (LSteps.cons (LStep.meta c8S2 true rfl)
          (LSteps.cons (LStep.rel c8S3 true rfl) (LSteps.nil c8Final))))
  exact ⟨hsteps,
    update_writes_not_interleaved c8Trace c8Final hsteps true
      [(true, DbAct.acquire)] [] [(true, DbAct.release)] rfl⟩

end QMag
